import Mathlib

/-!
Verification of the gistapi search service (gistapi/gistapi.py).

Shallow embedding of the pattern matcher, the per-file check, the per-gist
concurrent scan, the paginated gist lister, the search orchestrator and the
error handlers.  Remote HTTP traffic is modelled by explicit server
functions; the nondeterministic completion order of the concurrent file
tasks inside one gist scan is an explicit parameter constrained to be a
permutation of the gist's file indices.
-/

namespace Gistapi

/-- A structured failure from the remote gist host: HTTP status plus the
parsed JSON payload (kept opaque as a string).  Mirrors the `GitHubError`
exception class of `gistapi.py`. -/
structure RemoteError where
  status : Nat
  payload : String
deriving DecidableEq

/-- Abstract syntax for the fragment of Python regular expressions the
service exercises: literal characters, the wildcard `.` (whose behaviour on
a newline depends on the dot-all flag), character classes, concatenation,
alternation and Kleene star. -/
inductive Regex where
  | fail : Regex
  | eps : Regex
  | char : Char → Regex
  | dot : Regex
  | cls : List Char → Regex
  | cat : Regex → Regex → Regex
  | alt : Regex → Regex → Regex
  | star : Regex → Regex
deriving DecidableEq

/-- Does the regex accept the empty string? -/
def nullable : Regex → Bool
  | .fail => false
  | .eps => true
  | .char _ => false
  | .dot => false
  | .cls _ => false
  | .cat r1 r2 => nullable r1 && nullable r2
  | .alt r1 r2 => nullable r1 || nullable r2
  | .star _ => true

/-- Brzozowski derivative.  `dotall` is the `re.S` flag: when it is set,
`.` matches every character including a newline; when it is not set, `.`
matches every character except a newline. -/
def deriv (dotall : Bool) : Regex → Char → Regex
  | .fail, _ => .fail
  | .eps, _ => .fail
  | .char c, a => if a = c then .eps else .fail
  | .dot, a => if dotall || a ≠ '\n' then .eps else .fail
  | .cls l, a => if a ∈ l then .eps else .fail
  | .cat r1 r2, a =>
    if nullable r1 then .alt (.cat (deriv dotall r1 a) r2) (deriv dotall r2 a)
    else .cat (deriv dotall r1 a) r2
  | .alt r1 r2, a => .alt (deriv dotall r1 a) (deriv dotall r2 a)
  | .star r, a => .cat (deriv dotall r a) (.star r)

/-- Whole-string acceptance via derivatives. -/
def acceptsB (dotall : Bool) (r : Regex) : List Char → Bool
  | [] => nullable r
  | a :: s => acceptsB dotall (deriv dotall r a) s

/-- Python's `pattern.match(content)`: anchored at the start of the
content, it succeeds exactly when the pattern accepts some initial segment
of the content (never a match starting at a later position). -/
def pyMatchB (dotall : Bool) (r : Regex) (s : List Char) : Bool :=
  (List.range (s.length + 1)).any fun k => acceptsB dotall r (s.take k)

/-- Locate the closing bracket of a character class: the characters before
it and the remainder after it, or `none` when the class is unterminated. -/
def parseCls (s : List Char) : Option (List Char × List Char) :=
  match s.findIdx? (· = ']') with
  | none => none
  | some i => some (s.take i, s.drop (i + 1))

/-- The fragment of Python's `re` compiler the service can hit: a sequence
of atoms (literal character, `.`, or a `[...]` class), each optionally
starred.  An unclosed `[` is the `unterminated character set` error
reported at the position of the opening bracket; a leading `*` is the
`nothing to repeat` error.  The error string of this function models
`str(error)` for the raised `re.error`.  Recursion is bounded by `fuel`;
every step consumes at least one input character, so `length + 1` fuel
always suffices and the fuel-exhaustion branch is unreachable from
`pyCompile`. -/
def parseSeq : Nat → List Char → Nat → Except String Regex
  | 0, _, _ => .error "recursion limit exceeded"
  | _ + 1, [], _ => .ok .eps
  | _ + 1, '*' :: _, pos => .error ("nothing to repeat at position " ++ toString pos)
  | fuel + 1, '[' :: rest, pos =>
    match parseCls rest with
    | none => .error ("unterminated character set at position " ++ toString pos)
    | some (chars, '*' :: rest'') =>
      (parseSeq fuel rest'' (pos + chars.length + 3)).map (.cat (.star (.cls chars)))
    | some (chars, rest') =>
      (parseSeq fuel rest' (pos + chars.length + 2)).map (.cat (.cls chars))
  | fuel + 1, '.' :: '*' :: rest, pos => (parseSeq fuel rest (pos + 2)).map (.cat (.star .dot))
  | fuel + 1, '.' :: rest, pos => (parseSeq fuel rest (pos + 1)).map (.cat .dot)
  | fuel + 1, c :: '*' :: rest, pos => (parseSeq fuel rest (pos + 2)).map (.cat (.star (.char c)))
  | fuel + 1, c :: rest, pos => (parseSeq fuel rest (pos + 1)).map (.cat (.char c))

/-- `re.compile(pattern, re.S)` as used by `search`: parse the pattern
string, failing with the diagnostic text of the raised `re.error`. -/
def pyCompile (p : List Char) : Except String Regex :=
  parseSeq (p.length + 1) p 0

deriving instance DecidableEq for Except

example : pyCompile "[".toList = .error "unterminated character set at position 0" := by decide
example : pyCompile "ab[".toList = .error "unterminated character set at position 2" := by decide
example : (pyCompile ".*ab.*".toList).isOk = true := by decide
example : pyMatchB true Regex.dot ['\n'] = true := by decide
example : pyMatchB false Regex.dot ['\n'] = false := by decide

/-- The remote host's response to `session.get(raw_url)` for one gist
file: `ok` is a 200 response whose text body is the file content, `err`
is a non-200 response with its status and parsed JSON payload. -/
inductive FileResp where
  | ok : List Char → FileResp
  | err : Nat → String → FileResp
deriving DecidableEq

/-- One file of a gist: its `raw_url` together with the remote host's
response for that URL. -/
structure FileModel where
  raw_url : String
  resp : FileResp
deriving DecidableEq

/-- A gist record as read by the service: its canonical `url` and the
collection of its files. -/
structure Gist where
  url : String
  files : List FileModel
deriving DecidableEq

def dfltFile : FileModel := ⟨"", .ok []⟩

def dfltGist : Gist := ⟨"", []⟩

/-- The two exceptions that can be raised inside a gist scan:
`PatternFound` (the match signal) and `GitHubError` (a remote failure). -/
inductive ScanExn where
  | patternFound : ScanExn
  | github : RemoteError → ScanExn
deriving DecidableEq

/-- `check_file_contains_pattern`: fetch one file; on a 200 response test
the content with the anchored matcher `m` and raise `PatternFound` on a
match; on a non-200 response raise `GitHubError` with the status and the
parsed payload; otherwise complete normally. -/
def check_file_contains_pattern (m : List Char → Bool) (f : FileModel) :
    Except ScanExn Unit :=
  match f.resp with
  | .ok text => if m text then .error .patternFound else .ok ()
  | .err status payload => .error (.github ⟨status, payload⟩)

/-- `asyncio.gather(*tasks)` with `return_exceptions=False`, applied to the
task outcomes listed in completion order: the gathered future resolves with
the first exception in completion order, or completes normally when every
task completed normally. -/
def gatherFirstExn : List (Except ScanExn Unit) → Except ScanExn Unit
  | [] => .ok ()
  | .ok _ :: rest => gatherFirstExn rest
  | .error e :: _ => .error e

/-- `gist_contains_pattern`: launch one `check_file_contains_pattern` task
per file of the gist and gather them.  `order` lists the indices of the
gist's files in the (nondeterministic) order in which the tasks complete;
theorems constrain it to be a permutation of the file indices.  A
`PatternFound` outcome is caught and yields `true`; a `GitHubError`
propagates to the caller; normal completion of every task yields `false`. -/
def gist_contains_pattern (m : List Char → Bool) (g : Gist) (order : List Nat) :
    Except RemoteError Bool :=
  match gatherFirstExn ((order.map fun i => g.files.getD i dfltFile).map
      (check_file_contains_pattern m)) with
  | .error .patternFound => .ok true
  | .error (.github e) => .error e
  | .ok _ => .ok false

/-- A network call issued by the service: a listing-page request or a raw
file fetch. -/
inductive NetCall where
  | listPage : Nat → NetCall
  | fetchFile : String → NetCall
deriving DecidableEq

/-- The remote host's response to one listing-page request: `ok` is a 200
response whose JSON body is the array of gist records for that page, `err`
is a non-200 response with its status and parsed JSON payload. -/
inductive PageResp where
  | ok : List Gist → PageResp
  | err : Nat → String → PageResp
deriving DecidableEq

/-- `gists_for_user`: request pages 1, 2, ... of the user's gist listing,
raising `GitHubError` on a non-200 page response, stopping at the first
empty page, and accumulating the records of the non-empty pages in page
order.  Also records the trace of page requests issued.  The unbounded
`while True` loop is modelled with explicit fuel (`none` = the fuel ran
out before the loop exited). -/
def gists_for_user (server : Nat → PageResp) :
    Nat → Nat → List Gist → Option (Except RemoteError (List Gist) × List NetCall)
  | 0, _, _ => none
  | fuel + 1, page, acc =>
    match server page with
    | .err status payload => some (.error ⟨status, payload⟩, [.listPage page])
    | .ok [] => some (.ok acc, [.listPage page])
    | .ok data =>
      (gists_for_user server fuel (page + 1) (acc ++ data)).map
        fun out => (out.1, .listPage page :: out.2)

/-- The exception reaching the Flask error handler: a `GitHubError`, an
`re.error` carrying its diagnostic string, or anything else. -/
inductive AppException where
  | github : RemoteError → AppException
  | reError : String → AppException
  | other : AppException
deriving DecidableEq

/-- A JSON response body of the service: either `{"error": msg}` or the
success object `{"status": "success", "username": ..., "pattern": ...,
"matches": [...]}`. -/
inductive BodyJson where
  | errorMsg : String → BodyJson
  | success : String → String → List String → BodyJson
deriving DecidableEq

/-- An HTTP response of the service. -/
structure HttpResponse where
  status : Nat
  body : BodyJson
deriving DecidableEq

/-- `exception_handler`: a `GitHubError` is logged with its payload and
status and answered by a generic 500; an `re.error` is answered by a 400
whose message prepends `Invalid pattern, ` to the diagnostic; anything
else is answered by the generic 500.  Returns the response together with
the log lines written. -/
def exception_handler : AppException → HttpResponse × List String
  | .github e =>
    (⟨500, .errorMsg "Internal error. Please contact technical support."⟩,
     ["GitHub API error: " ++ e.payload ++ " (" ++ toString e.status ++ ")"])
  | .reError msg => (⟨400, .errorMsg ("Invalid pattern, " ++ msg)⟩, [])
  | .other =>
    (⟨500, .errorMsg "Internal error. Please contact technical support."⟩, [])

/-- Outcome of the per-gist loop of `search`: the accumulated matches or
the first exception, the network calls issued by the scans, and the urls
of the gists whose scan was started, in order. -/
structure LoopOut where
  result : Except AppException (List String)
  calls : List NetCall
  scanned : List String
deriving DecidableEq

/-- The `for gist in gists` loop of `search`: for each gist in turn compile
the pattern (`re.compile` sits inside the loop body), scan the gist, and
append its url to the matches on a `true` scan.  An `re.error` or a
`GitHubError` aborts the loop at the current gist.  `sched k` is the task
completion order used by the scan of the gist at absolute index `k`;
launching the scan issues one fetch per file task. -/
def searchLoop (p : List Char) (sched : Nat → List Nat) :
    List Gist → Nat → LoopOut
  | [], _ => ⟨.ok [], [], []⟩
  | g :: gs, k =>
    match pyCompile p with
    | .error msg => ⟨.error (.reError msg), [], []⟩
    | .ok r =>
      let order := sched k
      let fcalls := (order.map fun i => (g.files.getD i dfltFile).raw_url).map NetCall.fetchFile
      match gist_contains_pattern (pyMatchB true r) g order with
      | .error e => ⟨.error (.github e), fcalls, [g.url]⟩
      | .ok b =>
        let rest := searchLoop p sched gs (k + 1)
        ⟨rest.result.map fun ms => if b then g.url :: ms else ms,
         fcalls ++ rest.calls, g.url :: rest.scanned⟩

/-- The `search` route body after input validation: list the user's gists
(a `GitHubError` there is answered by the handler), run the per-gist loop
(an `re.error` or `GitHubError` there is answered by the handler), and on
normal completion answer 200 with the success object.  Returns the
response, the full trace of network calls, and the log lines. -/
def searchRoute (server : Nat → PageResp) (sched : Nat → List Nat)
    (username pattern : String) (fuel : Nat) :
    Option (HttpResponse × List NetCall × List String) :=
  match gists_for_user server fuel 1 [] with
  | none => none
  | some (.error e, calls) =>
    some ((exception_handler (.github e)).1, calls, (exception_handler (.github e)).2)
  | some (.ok gists, calls) =>
    let out := searchLoop pattern.toList sched gists 0
    match out.result with
    | .error exn =>
      some ((exception_handler exn).1, calls ++ out.calls, (exception_handler exn).2)
    | .ok ms =>
      some (⟨200, .success username pattern ms⟩, calls ++ out.calls, [])

/-- A file whose fetch returned 200 and whose content the matcher accepts
(the condition under which `check_file_contains_pattern` raises
`PatternFound`). -/
def fileMatched (m : List Char → Bool) (f : FileModel) : Bool :=
  match f.resp with
  | .ok t => m t
  | .err _ _ => false

/-- The file task completion order of a scan, as the list of the files the
tasks belong to. -/
def completionOf (g : Gist) (order : List Nat) : List FileModel :=
  order.map fun i => g.files.getD i dfltFile

theorem check_eq_ok_iff (m : List Char → Bool) (f : FileModel) :
    check_file_contains_pattern m f = Except.ok () ↔
      ∃ t, f.resp = .ok t ∧ m t = false := by
  unfold check_file_contains_pattern
  cases h : f.resp with
  | ok t =>
    cases hm : m t with
    | true => simp [hm]
    | false => simp [hm]
  | err s pl => simp

theorem check_eq_patternFound_iff (m : List Char → Bool) (f : FileModel) :
    check_file_contains_pattern m f = Except.error ScanExn.patternFound ↔
      fileMatched m f = true := by
  unfold check_file_contains_pattern fileMatched
  cases h : f.resp with
  | ok t =>
    cases hm : m t with
    | true => simp [hm]
    | false => simp [hm]
  | err s pl => simp

theorem check_eq_github (m : List Char → Bool) (f : FileModel) (st : Nat) (pl : String)
    (h : f.resp = .err st pl) :
    check_file_contains_pattern m f = Except.error (ScanExn.github ⟨st, pl⟩) := by
  unfold check_file_contains_pattern
  rw [h]

theorem gatherFirstExn_all_ok :
    ∀ evs : List (Except ScanExn Unit), (∀ ev ∈ evs, ev = Except.ok ()) →
      gatherFirstExn evs = .ok ()
  | [], _ => rfl
  | ev :: rest, h => by
    have h0 : ev = Except.ok () := h ev (by simp)
    subst h0
    simp only [gatherFirstExn]
    exact gatherFirstExn_all_ok rest fun ev hm => h ev (by simp [hm])

theorem gatherFirstExn_eq_ok :
    ∀ evs : List (Except ScanExn Unit), gatherFirstExn evs = .ok () →
      ∀ ev ∈ evs, ev = Except.ok ()
  | [], _, ev, hm => absurd hm (by simp)
  | ev0 :: rest, h, ev, hm => by
    cases ev0 with
    | ok u =>
      cases hm with
      | head => rfl
      | tail _ hm' => exact gatherFirstExn_eq_ok rest h ev hm'
    | error e => exact absurd h (by simp [gatherFirstExn])

theorem gatherFirstExn_append_error (e : ScanExn) :
    ∀ (evs1 evs2 : List (Except ScanExn Unit)), (∀ ev ∈ evs1, ev = Except.ok ()) →
      gatherFirstExn (evs1 ++ Except.error e :: evs2) = .error e
  | [], evs2, _ => by simp [gatherFirstExn]
  | ev :: rest, evs2, h => by
    have h0 : ev = Except.ok () := h ev (by simp)
    subst h0
    simp only [List.cons_append, gatherFirstExn]
    exact gatherFirstExn_append_error e rest evs2 fun ev hm => h ev (by simp [hm])

theorem gatherFirstExn_eq_error (e : ScanExn) :
    ∀ evs : List (Except ScanExn Unit), gatherFirstExn evs = .error e →
      Except.error e ∈ evs
  | [], h => absurd h (by simp [gatherFirstExn])
  | ev0 :: rest, h => by
    cases ev0 with
    | ok u =>
      simp only [gatherFirstExn] at h
      exact List.mem_cons_of_mem _ (gatherFirstExn_eq_error e rest h)
    | error e' =>
      simp only [gatherFirstExn, Except.error.injEq] at h
      subst h
      exact List.mem_cons_self _ _

theorem range_map_getD {α : Type} (l : List α) (d : α) :
    (List.range l.length).map (fun i => l.getD i d) = l := by
  induction l with
  | nil => simp
  | cons a t ih =>
    rw [List.length_cons, List.range_succ_eq_map]
    simp only [List.map_cons, List.map_map]
    refine congrArg₂ _ rfl ?_
    have hcongr : ∀ i ∈ List.range t.length,
        ((fun i => (a :: t).getD i d) ∘ Nat.succ) i = (fun i => t.getD i d) i := by
      intro i _
      simp [Function.comp, List.getD_cons_succ]
    rw [List.map_congr_left hcongr, ih]

theorem completionOf_perm (g : Gist) (order : List Nat)
    (h : order.Perm (List.range g.files.length)) :
    (completionOf g order).Perm g.files := by
  have hm := h.map fun i => g.files.getD i dfltFile
  rwa [range_map_getD] at hm

theorem gist_contains_pattern_eq (m : List Char → Bool) (g : Gist) (order : List Nat) :
    gist_contains_pattern m g order =
      match gatherFirstExn ((completionOf g order).map (check_file_contains_pattern m)) with
      | .error .patternFound => .ok true
      | .error (.github e) => .error e
      | .ok _ => .ok false := rfl

theorem scan_true_of_first_match (m : List Char → Bool) (g : Gist) (order : List Nat)
    (pre post : List FileModel) (f : FileModel)
    (hsplit : completionOf g order = pre ++ f :: post)
    (hq : ∀ f' ∈ pre, check_file_contains_pattern m f' = .ok ())
    (hm : fileMatched m f = true) :
    gist_contains_pattern m g order = .ok true := by
  rw [gist_contains_pattern_eq, hsplit]
  rw [List.map_append, List.map_cons, (check_eq_patternFound_iff m f).mpr hm]
  rw [gatherFirstExn_append_error _ _ _ fun ev hev => by
    obtain ⟨f', hf', rfl⟩ := List.mem_map.mp hev
    exact hq f' hf']

theorem scan_error_of_first_error (m : List Char → Bool) (g : Gist) (order : List Nat)
    (pre post : List FileModel) (f : FileModel) (st : Nat) (pl : String)
    (hsplit : completionOf g order = pre ++ f :: post)
    (hq : ∀ f' ∈ pre, check_file_contains_pattern m f' = .ok ())
    (hf : f.resp = .err st pl) :
    gist_contains_pattern m g order = .error ⟨st, pl⟩ := by
  rw [gist_contains_pattern_eq, hsplit]
  rw [List.map_append, List.map_cons, check_eq_github m f st pl hf]
  rw [gatherFirstExn_append_error _ _ _ fun ev hev => by
    obtain ⟨f', hf', rfl⟩ := List.mem_map.mp hev
    exact hq f' hf']

theorem scan_false_of_all_quiet (m : List Char → Bool) (g : Gist) (order : List Nat)
    (hq : ∀ f ∈ completionOf g order, check_file_contains_pattern m f = .ok ()) :
    gist_contains_pattern m g order = .ok false := by
  rw [gist_contains_pattern_eq]
  rw [gatherFirstExn_all_ok _ fun ev hev => by
    obtain ⟨f', hf', rfl⟩ := List.mem_map.mp hev
    exact hq f' hf']

theorem scan_eq_true_imp (m : List Char → Bool) (g : Gist) (order : List Nat)
    (h : gist_contains_pattern m g order = .ok true) :
    ∃ f ∈ completionOf g order, fileMatched m f = true := by
  rw [gist_contains_pattern_eq] at h
  cases hg : gatherFirstExn ((completionOf g order).map (check_file_contains_pattern m)) with
  | ok u => rw [hg] at h; exact absurd h (by simp)
  | error e =>
    cases e with
    | patternFound =>
      have hmem := gatherFirstExn_eq_error _ _ hg
      obtain ⟨f, hf, hev⟩ := List.mem_map.mp hmem
      exact ⟨f, hf, (check_eq_patternFound_iff m f).mp hev⟩
    | github e' => rw [hg] at h; exact absurd h (by simp)

theorem scan_eq_false_imp (m : List Char → Bool) (g : Gist) (order : List Nat)
    (h : gist_contains_pattern m g order = .ok false) :
    ∀ f ∈ completionOf g order, check_file_contains_pattern m f = .ok () := by
  rw [gist_contains_pattern_eq] at h
  cases hg : gatherFirstExn ((completionOf g order).map (check_file_contains_pattern m)) with
  | ok u =>
    intro f hf
    exact gatherFirstExn_eq_ok _ hg _ (List.mem_map_of_mem _ hf)
  | error e =>
    rw [hg] at h
    cases e with
    | patternFound => exact absurd h (by simp)
    | github e' => exact absurd h (by simp)

/-- With a valid completion order, a scan that resolved `true` saw a
matching file of the gist, and a scan that resolved `false` saw every file
of the gist fetch cleanly and fail to match. -/
theorem scan_ok_iff_matched (m : List Char → Bool) (g : Gist) (order : List Nat) (b : Bool)
    (horder : order.Perm (List.range g.files.length))
    (h : gist_contains_pattern m g order = .ok b) :
    b = true ↔ ∃ f ∈ g.files, fileMatched m f = true := by
  have hperm := completionOf_perm g order horder
  constructor
  · intro hb
    subst hb
    obtain ⟨f, hf, hmf⟩ := scan_eq_true_imp m g order h
    exact ⟨f, hperm.mem_iff.mp hf, hmf⟩
  · rintro ⟨f, hf, hmf⟩
    cases b with
    | true => rfl
    | false =>
      have hq := scan_eq_false_imp m g order h f (hperm.mem_iff.mpr hf)
      obtain ⟨t, ht, hmt⟩ := (check_eq_ok_iff m f).mp hq
      unfold fileMatched at hmf
      rw [ht] at hmf
      simp only at hmf
      rw [hmf] at hmt
      exact absurd hmt (by simp)

/-- Ceiling division on naturals: the number of pages needed to hold `n`
records at `p` records per page. -/
def ceilDiv (n p : Nat) : Nat := (n + p - 1) / p

/-- A healthy remote listing: the server holds the gist records `G` and
serves them at page size `P`, pages numbered from 1; a page past the end
is the empty array. -/
def goodServer (G : List Gist) (P : Nat) : Nat → PageResp :=
  fun page => .ok ((G.drop ((page - 1) * P)).take P)

theorem ceilDiv_zero_left (p : Nat) (hp : 0 < p) : ceilDiv 0 p = 0 := by
  unfold ceilDiv
  exact Nat.div_eq_of_lt (by omega)

theorem ceilDiv_sub_step (P n : Nat) (hP : 0 < P) (hn : 0 < n) :
    ceilDiv (n - P) P + 1 = ceilDiv n P := by
  unfold ceilDiv
  rcases le_or_lt P n with h | h
  · have h1 : n + P - 1 = (n - P + P - 1) + P := by omega
    rw [h1, Nat.add_div_right _ hP]
  · have h1 : n - P = 0 := by omega
    have h2 : (0 + P - 1) / P = 0 := Nat.div_eq_of_lt (by omega)
    have h3 : n + P - 1 = (n - 1) + P := by omega
    rw [h1, h2, h3, Nat.add_div_right _ hP, Nat.div_eq_of_lt (by omega)]

theorem le_ceilDiv_mul (n P : Nat) (hP : 0 < P) : n ≤ ceilDiv n P * P := by
  rcases Nat.eq_zero_or_pos n with h0 | h0
  · subst h0; exact Nat.zero_le _
  · unfold ceilDiv
    have h1 : n + P - 1 = (n - 1) + P := by omega
    rw [h1, Nat.add_div_right _ hP]
    have h2 : n - 1 < ((n - 1) / P + 1) * P :=
      (Nat.div_lt_iff_lt_mul hP).mp (Nat.lt_succ_self _)
    have h3 : n - 1 + 1 ≤ ((n - 1) / P + 1) * P := Nat.succ_le_of_lt h2
    rwa [Nat.sub_add_cancel h0] at h3

theorem listPage_calls_shift0 (p c : Nat) :
    NetCall.listPage p :: ((List.range c).map fun i => NetCall.listPage (p + 1 + i)) =
      (List.range (c + 1)).map fun i => NetCall.listPage (p + i) := by
  rw [List.range_succ_eq_map, List.map_cons, List.map_map]
  refine congrArg₂ _ (by simp) ?_
  refine List.map_congr_left ?_
  intro i _
  simp only [Function.comp_apply]
  exact congrArg NetCall.listPage (by omega)

theorem listPage_calls_shift (k c : Nat) :
    NetCall.listPage (k + 1) :: ((List.range c).map fun i => NetCall.listPage (k + 2 + i)) =
      (List.range (c + 1)).map fun i => NetCall.listPage (k + 1 + i) := by
  rw [List.range_succ_eq_map, List.map_cons, List.map_map]
  refine congrArg₂ _ (by simp) ?_
  refine List.map_congr_left ?_
  intro i _
  simp only [Function.comp_apply]
  exact congrArg NetCall.listPage (by omega)

/-- Run of the listing loop against any server that serves the records `R`
from page `k + 1` onward at page size `P`: it performs one request per
chunk of `P` records plus the final empty-page request and accumulates all
records in page order. -/
theorem gists_for_user_good (P : Nat) (hP : 0 < P) :
    ∀ (fuel : Nat) (R : List Gist) (server : Nat → PageResp) (k : Nat) (acc : List Gist),
      (∀ j, server (k + 1 + j) = .ok ((R.drop (j * P)).take P)) →
      ceilDiv R.length P + 1 ≤ fuel →
      gists_for_user server fuel (k + 1) acc =
        some (.ok (acc ++ R),
              (List.range (ceilDiv R.length P + 1)).map fun i => .listPage (k + 1 + i)) := by
  intro fuel
  induction fuel with
  | zero => intro R server k acc _ hfuel; omega
  | succ f ih =>
    intro R server k acc hs hfuel
    cases hR : R with
    | nil =>
      subst hR
      have h0 : server (k + 1) = .ok [] := by
        have := hs 0
        simpa using this
      simp [gists_for_user, h0, ceilDiv_zero_left P hP, List.range_succ]
    | cons x R0 =>
      have h0 : server (k + 1) = .ok (R.take P) := by
        have := hs 0
        simpa using this
      have hne : R.take P ≠ [] := by
        have hl : 0 < (R.take P).length := by
          rw [List.length_take, hR]
          simp only [List.length_cons]
          omega
        intro hcontra
        rw [hcontra] at hl
        simp at hl
      rw [← hR]
      cases htake : R.take P with
      | nil => exact absurd htake hne
      | cons y ys =>
        rw [htake] at h0
        simp only [gists_for_user, h0]
        have hs' : ∀ j, server (k + 2 + j) = .ok (((R.drop P).drop (j * P)).take P) := by
          intro j
          have hj := hs (j + 1)
          have harith : k + 1 + (j + 1) = k + 2 + j := by omega
          rw [harith] at hj
          rw [hj, List.drop_drop]
          have h2 : P + j * P = (j + 1) * P := by ring
          rw [h2]
        have hlen : 0 < R.length := by rw [hR]; simp
        have hstep := ceilDiv_sub_step P R.length hP hlen
        have hfuel' : ceilDiv (R.drop P).length P + 1 ≤ f := by
          rw [List.length_drop]
          omega
        have hrec := ih (R.drop P) server (k + 1) (acc ++ (y :: ys)) hs' hfuel'
        have hk2 : k + 1 + 1 = k + 2 := by omega
        rw [hk2] at hrec
        rw [hrec]
        simp only [Option.map_some']
        have hlist : acc ++ (y :: ys) ++ R.drop P = acc ++ R := by
          rw [List.append_assoc, ← htake, List.take_append_drop]
        have hc' : ceilDiv (R.drop P).length P + 1 = ceilDiv R.length P := by
          rw [List.length_drop]
          omega
        rw [hlist, hc', listPage_calls_shift]

/-- Run of the listing loop when page `page + d` answers with a non-200
status after `d` non-empty 200 pages: the loop stops at the error page and
returns the error alone, with no accumulated records. -/
theorem gists_for_user_err :
    ∀ (d : Nat) (server : Nat → PageResp) (st : Nat) (pl : String) (page fuel : Nat)
      (acc : List Gist),
      server (page + d) = .err st pl →
      (∀ j < d, ∃ x gs, server (page + j) = .ok (x :: gs)) →
      d < fuel →
      gists_for_user server fuel page acc =
        some (.error ⟨st, pl⟩, (List.range (d + 1)).map fun i => .listPage (page + i)) := by
  intro d
  induction d with
  | zero =>
    intro server st pl page fuel acc herr _ hfuel
    cases fuel with
    | zero => omega
    | succ f =>
      have h0 : server page = .err st pl := by simpa using herr
      simp [gists_for_user, h0, List.range_succ]
  | succ d ih =>
    intro server st pl page fuel acc herr hpre hfuel
    cases fuel with
    | zero => omega
    | succ f =>
      obtain ⟨x, gs, h0⟩ := hpre 0 (by omega)
      rw [Nat.add_zero] at h0
      simp only [gists_for_user, h0]
      have herr' : server (page + 1 + d) = .err st pl := by
        have harith : page + 1 + d = page + (d + 1) := by omega
        rw [harith]
        exact herr
      have hpre' : ∀ j < d, ∃ x' gs', server (page + 1 + j) = .ok (x' :: gs') := by
        intro j hj
        have harith : page + 1 + j = page + (j + 1) := by omega
        rw [harith]
        exact hpre (j + 1) (by omega)
      have hrec := ih server st pl (page + 1) f (acc ++ (x :: gs)) herr' hpre' (by omega)
      rw [hrec]
      simp only [Option.map_some']
      refine congrArg _ (congrArg _ ?_)
      exact listPage_calls_shift0 page (d + 1)

/-- Every network call recorded by the listing loop is a page request. -/
theorem gists_for_user_calls_listPage :
    ∀ (fuel : Nat) (server : Nat → PageResp) (page : Nat) (acc : List Gist) out,
      gists_for_user server fuel page acc = some out →
      ∀ c ∈ out.2, ∃ pg, c = NetCall.listPage pg := by
  intro fuel
  induction fuel with
  | zero => intro server page acc out h; exact absurd h (by simp [gists_for_user])
  | succ f ih =>
    intro server page acc out h c hc
    rw [gists_for_user] at h
    cases hs : server page with
    | err st pl =>
      rw [hs] at h
      simp only [Option.some.injEq] at h
      rw [← h] at hc
      simp only at hc
      rcases hc with hc
      simp at hc
      exact ⟨page, hc⟩
    | ok data =>
      cases data with
      | nil =>
        rw [hs] at h
        simp only [Option.some.injEq] at h
        rw [← h] at hc
        simp only at hc
        simp at hc
        exact ⟨page, hc⟩
      | cons x gs =>
        rw [hs] at h
        have h' : Option.map (fun out => (out.1, NetCall.listPage page :: out.2))
            (gists_for_user server f (page + 1) (acc ++ (x :: gs))) = some out := h
        cases hrec : gists_for_user server f (page + 1) (acc ++ (x :: gs)) with
        | none => rw [hrec] at h'; exact absurd h' (by simp)
        | some out' =>
          rw [hrec] at h'
          simp only [Option.map_some', Option.some.injEq] at h'
          rw [← h'] at hc
          simp only at hc
          rcases List.mem_cons.mp hc with hc1 | hc2
          · exact ⟨page, hc1⟩
          · exact ih server (page + 1) (acc ++ (x :: gs)) out' hrec c hc2

/-- The network calls issued by launching one gist scan: one raw-file
fetch per file task. -/
def scanCalls (g : Gist) (order : List Nat) : List NetCall :=
  (order.map fun i => (g.files.getD i dfltFile).raw_url).map NetCall.fetchFile

theorem searchLoop_cons_eq (p : List Char) (sched : Nat → List Nat) (g : Gist)
    (gs : List Gist) (k : Nat) (r : Regex) (hc : pyCompile p = .ok r) :
    searchLoop p sched (g :: gs) k =
      match gist_contains_pattern (pyMatchB true r) g (sched k) with
      | .error e => ⟨.error (.github e), scanCalls g (sched k), [g.url]⟩
      | .ok b =>
        ⟨(searchLoop p sched gs (k + 1)).result.map fun ms => if b then g.url :: ms else ms,
         scanCalls g (sched k) ++ (searchLoop p sched gs (k + 1)).calls,
         g.url :: (searchLoop p sched gs (k + 1)).scanned⟩ := by
  simp only [searchLoop, hc, scanCalls]

theorem searchLoop_cons_err (p : List Char) (sched : Nat → List Nat) (g : Gist)
    (gs : List Gist) (k : Nat) (r : Regex) (e : RemoteError) (hc : pyCompile p = .ok r)
    (hscan : gist_contains_pattern (pyMatchB true r) g (sched k) = .error e) :
    searchLoop p sched (g :: gs) k =
      ⟨.error (.github e), scanCalls g (sched k), [g.url]⟩ := by
  rw [searchLoop_cons_eq p sched g gs k r hc, hscan]

theorem searchLoop_cons_okb (p : List Char) (sched : Nat → List Nat) (g : Gist)
    (gs : List Gist) (k : Nat) (r : Regex) (b : Bool) (hc : pyCompile p = .ok r)
    (hscan : gist_contains_pattern (pyMatchB true r) g (sched k) = .ok b) :
    searchLoop p sched (g :: gs) k =
      ⟨(searchLoop p sched gs (k + 1)).result.map fun ms => if b then g.url :: ms else ms,
       scanCalls g (sched k) ++ (searchLoop p sched gs (k + 1)).calls,
       g.url :: (searchLoop p sched gs (k + 1)).scanned⟩ := by
  rw [searchLoop_cons_eq p sched g gs k r hc, hscan]

/-- On a loop run that completes without an exception, every gist was
scanned, in listing order, and the matches are a subsequence of the gist
urls in listing order. -/
theorem searchLoop_ok_shape (p : List Char) (sched : Nat → List Nat) (r : Regex)
    (hc : pyCompile p = .ok r) :
    ∀ (gists : List Gist) (k : Nat) (ms : List String),
      (searchLoop p sched gists k).result = .ok ms →
      (searchLoop p sched gists k).scanned = gists.map Gist.url
      ∧ ms.Sublist (gists.map Gist.url) := by
  intro gists
  induction gists with
  | nil =>
    intro k ms h
    simp only [searchLoop] at h ⊢
    have hms : ms = [] := by
      have := h
      simp only [Except.ok.injEq] at this
      exact this.symm
    subst hms
    simp
  | cons g gs ih =>
    intro k ms h
    cases hscan : gist_contains_pattern (pyMatchB true r) g (sched k) with
    | error e =>
      rw [searchLoop_cons_err p sched g gs k r e hc hscan] at h
      exact absurd h (by simp)
    | ok b =>
      rw [searchLoop_cons_okb p sched g gs k r b hc hscan] at h ⊢
      simp only at h ⊢
      cases hr : (searchLoop p sched gs (k + 1)).result with
      | error e' => rw [hr] at h; exact absurd h (by simp [Except.map])
      | ok ms' =>
        rw [hr] at h
        simp only [Except.map, Except.ok.injEq] at h
        obtain ⟨hsc, hsub⟩ := ih (k + 1) ms' hr
        subst h
        constructor
        · rw [List.map_cons, hsc]
        · cases b with
          | true => exact List.Sublist.cons₂ _ hsub
          | false => exact List.Sublist.cons _ hsub

theorem getD_mem {α : Type} (l : List α) (i : Nat) (d : α) (hi : i < l.length) :
    l.getD i d ∈ l := by
  rw [List.getD_eq_getElem l d hi]
  exact List.getElem_mem hi

/-- On a loop run that completes without an exception, every gist's scan
resolved without error and the gist's url is among the matches exactly
when its scan resolved `true` (gist urls assumed pairwise distinct). -/
theorem searchLoop_ok_mem (p : List Char) (sched : Nat → List Nat) (r : Regex)
    (hc : pyCompile p = .ok r) :
    ∀ (gists : List Gist) (k : Nat) (ms : List String),
      (searchLoop p sched gists k).result = .ok ms →
      (gists.map Gist.url).Nodup →
      ∀ i, i < gists.length → ∃ b,
        gist_contains_pattern (pyMatchB true r) (gists.getD i dfltGist) (sched (k + i)) = .ok b
        ∧ ((gists.getD i dfltGist).url ∈ ms ↔ b = true) := by
  intro gists
  induction gists with
  | nil => intro k ms _ _ i hi; exact absurd hi (by simp)
  | cons g gs ih =>
    intro k ms h hnodup i hi
    cases hscan : gist_contains_pattern (pyMatchB true r) g (sched k) with
    | error e =>
      rw [searchLoop_cons_err p sched g gs k r e hc hscan] at h
      exact absurd h (by simp)
    | ok b0 =>
      rw [searchLoop_cons_okb p sched g gs k r b0 hc hscan] at h
      simp only at h
      cases hr : (searchLoop p sched gs (k + 1)).result with
      | error e' => rw [hr] at h; exact absurd h (by simp [Except.map])
      | ok ms' =>
        rw [hr] at h
        simp only [Except.map, Except.ok.injEq] at h
        subst h
        rw [List.map_cons, List.nodup_cons] at hnodup
        obtain ⟨hhead, htail⟩ := hnodup
        cases i with
        | zero =>
          refine ⟨b0, ?_, ?_⟩
          · simpa using hscan
          · cases b0 with
            | true =>
              constructor
              · intro _; rfl
              · intro _; exact List.mem_cons_self _ _
            | false =>
              have hsub := (searchLoop_ok_shape p sched r hc gs (k + 1) ms' hr).2
              constructor
              · intro hmem
                exact absurd (hsub.subset hmem) (by simpa using hhead)
              · intro hcontra
                exact absurd hcontra (by simp)
        | succ j =>
          have hj : j < gs.length := by simpa using hi
          obtain ⟨b, hb, hiff⟩ := ih (k + 1) ms' hr htail j hj
          refine ⟨b, ?_, ?_⟩
          · have harith : k + (j + 1) = k + 1 + j := by omega
            rw [harith]
            simpa using hb
          · have hne : (gs.getD j dfltGist).url ≠ g.url := by
              intro hcontra
              apply hhead
              rw [← hcontra]
              exact List.mem_map_of_mem Gist.url (getD_mem gs j dfltGist hj)
            cases b0 with
            | true =>
              rw [List.getD_cons_succ]
              constructor
              · intro hmem
                rcases List.mem_cons.mp hmem with hmem | hmem
                · exact absurd hmem hne
                · exact hiff.mp hmem
              · intro hbt
                exact List.mem_cons_of_mem _ (hiff.mpr hbt)
            | false =>
              rw [List.getD_cons_succ]
              exact hiff

/-- On a loop run whose gist `i` scan raised `GitHubError` after the scans
of gists `0 .. i-1` resolved without error, the loop resolves with that
error and only gists `0 .. i` were scanned. -/
theorem searchLoop_err_aux (p : List Char) (sched : Nat → List Nat) (r : Regex)
    (hc : pyCompile p = .ok r) :
    ∀ (i : Nat) (gists : List Gist) (k : Nat) (e : RemoteError),
      (∀ j, j < i → ∃ b,
        gist_contains_pattern (pyMatchB true r) (gists.getD j dfltGist) (sched (k + j)) = .ok b) →
      i < gists.length →
      gist_contains_pattern (pyMatchB true r) (gists.getD i dfltGist) (sched (k + i)) = .error e →
      (searchLoop p sched gists k).result = .error (.github e)
      ∧ (searchLoop p sched gists k).scanned = (gists.take (i + 1)).map Gist.url := by
  intro i
  induction i with
  | zero =>
    intro gists k e _ hi herr
    cases gists with
    | nil => exact absurd hi (by simp)
    | cons g gs =>
      have hscan : gist_contains_pattern (pyMatchB true r) g (sched k) = .error e := by
        simpa using herr
      rw [searchLoop_cons_err p sched g gs k r e hc hscan]
      simp
  | succ i ih =>
    intro gists k e hpre hi herr
    cases gists with
    | nil => exact absurd hi (by simp)
    | cons g gs =>
      obtain ⟨b0, hb0⟩ := hpre 0 (by omega)
      have hscan : gist_contains_pattern (pyMatchB true r) g (sched k) = .ok b0 := by
        simpa using hb0
      rw [searchLoop_cons_okb p sched g gs k r b0 hc hscan]
      have hpre' : ∀ j, j < i → ∃ b,
          gist_contains_pattern (pyMatchB true r) (gs.getD j dfltGist) (sched (k + 1 + j)) = .ok b := by
        intro j hj
        obtain ⟨b, hb⟩ := hpre (j + 1) (by omega)
        refine ⟨b, ?_⟩
        have harith : k + 1 + j = k + (j + 1) := by omega
        rw [harith]
        simpa using hb
      have hi' : i < gs.length := by simpa using hi
      have herr' :
          gist_contains_pattern (pyMatchB true r) (gs.getD i dfltGist) (sched (k + 1 + i)) = .error e := by
        have harith : k + 1 + i = k + (i + 1) := by omega
        rw [harith]
        simpa using herr
      obtain ⟨hres, hsc⟩ := ih gs (k + 1) e hpre' hi' herr'
      refine ⟨?_, ?_⟩
      · simp only [hres, Except.map]
      · simp only [hsc, List.take_succ_cons, List.map_cons]

theorem searchRoute_eq (server : Nat → PageResp) (sched : Nat → List Nat)
    (u p : String) (fuel : Nat) (gists : List Gist) (cs : List NetCall)
    (hlist : gists_for_user server fuel 1 [] = some (.ok gists, cs)) :
    searchRoute server sched u p fuel =
      match (searchLoop p.toList sched gists 0).result with
      | .error exn =>
        some ((exception_handler exn).1,
              cs ++ (searchLoop p.toList sched gists 0).calls, (exception_handler exn).2)
      | .ok ms =>
        some (⟨200, .success u p ms⟩, cs ++ (searchLoop p.toList sched gists 0).calls, []) := by
  unfold searchRoute
  rw [hlist]

/-- Claim C4: for a username whose remote listing holds `N` gists served at
page size `P > 0` with every page response successful, the lister performs
exactly `ceil(N/P) + 1` page requests, in page order starting at page 1,
the last requested page is the empty page, and all `N` gist records are
returned concatenated in page order. -/
theorem C4_pagination (G : List Gist) (P fuel : Nat) (hP : 0 < P)
    (hfuel : ceilDiv G.length P + 1 ≤ fuel) :
    gists_for_user (goodServer G P) fuel 1 [] =
      some (.ok G, (List.range (ceilDiv G.length P + 1)).map fun i => .listPage (i + 1))
    ∧ goodServer G P (ceilDiv G.length P + 1) = .ok [] := by
  constructor
  · have hs : ∀ j, goodServer G P (0 + 1 + j) = .ok ((G.drop (j * P)).take P) := by
      intro j
      unfold goodServer
      have harith : 0 + 1 + j - 1 = j := by omega
      rw [harith]
    have hrun := gists_for_user_good P hP fuel G (goodServer G P) 0 [] hs hfuel
    have hmap : ((List.range (ceilDiv G.length P + 1)).map fun i => NetCall.listPage (0 + 1 + i)) =
        (List.range (ceilDiv G.length P + 1)).map fun i => NetCall.listPage (i + 1) :=
      List.map_congr_left fun i _ => congrArg _ (by omega)
    rw [hmap] at hrun
    simpa using hrun
  · unfold goodServer
    have hlen : G.length ≤ (ceilDiv G.length P + 1 - 1) * P := by
      have := le_ceilDiv_mul G.length P hP
      have harith : ceilDiv G.length P + 1 - 1 = ceilDiv G.length P := by omega
      rw [harith]
      exact this
    rw [List.drop_eq_nil_of_le hlen]
    simp

/-- Witness for C4: three gists at page size two need two full-or-partial
pages plus the final empty page: exactly three requests. -/
theorem C4_pagination_witness :
    gists_for_user (goodServer [⟨"u1", []⟩, ⟨"u2", []⟩, ⟨"u3", []⟩] 2) 3 1 [] =
      some (.ok ([⟨"u1", []⟩, ⟨"u2", []⟩, ⟨"u3", []⟩] : List Gist),
            (List.range (ceilDiv 3 2 + 1)).map fun i => .listPage (i + 1))
    ∧ goodServer [⟨"u1", []⟩, ⟨"u2", []⟩, ⟨"u3", []⟩] 2 (ceilDiv 3 2 + 1) = .ok [] :=
  C4_pagination [⟨"u1", []⟩, ⟨"u2", []⟩, ⟨"u3", []⟩] 2 3 (by decide) (by decide)

/-- Claim C8: a non-success response on listing page `1 + d`, after `d`
successful non-empty pages, makes the lister fail immediately with a
`RemoteError` carrying exactly that response's status and parsed body; the
result carries no partial list of the records accumulated from the earlier
pages. -/
theorem C8_listing_error (server : Nat → PageResp) (d st fuel : Nat) (pl : String)
    (herr : server (1 + d) = .err st pl)
    (hpre : ∀ j, j < d → ∃ x gs, server (1 + j) = .ok (x :: gs))
    (hfuel : d < fuel) :
    gists_for_user server fuel 1 [] =
      some (.error ⟨st, pl⟩, (List.range (d + 1)).map fun i => .listPage (1 + i)) :=
  gists_for_user_err d server st pl 1 fuel [] herr hpre hfuel

/-- Witness for C8: one good page then a 403 on page 2 yields the error
alone, with no partial records. -/
theorem C8_listing_error_witness :
    gists_for_user
        (fun page => if page = 1 then .ok [⟨"u1", []⟩] else .err 403 "forbidden") 5 1 [] =
      some (.error ⟨403, "forbidden"⟩,
            (List.range (1 + 1)).map fun i => .listPage (1 + i)) :=
  C8_listing_error (fun page => if page = 1 then .ok [⟨"u1", []⟩] else .err 403 "forbidden")
    1 403 5 "forbidden" (by decide)
    (fun j hj => by
      have hj0 : j = 0 := by omega
      subst hj0
      exact ⟨⟨"u1", []⟩, [], by decide⟩)
    (by decide)

/-- Claim C10: when the user's gist listing is empty (page 1 is already the
empty page), the search answers 200 with status success and an empty
matches list for every pattern string, including pattern strings that do
not compile, because `re.compile` sits inside the per-gist loop and is
never reached. -/
theorem C10_empty_listing (server : Nat → PageResp) (sched : Nat → List Nat)
    (u p : String) (fuel : Nat)
    (hempty : server 1 = .ok []) :
    searchRoute server sched u p (fuel + 1) =
      some (⟨200, .success u p []⟩, [.listPage 1], []) := by
  have hlist : gists_for_user server (fuel + 1) 1 [] = some (.ok [], [.listPage 1]) := by
    simp [gists_for_user, hempty]
  rw [searchRoute_eq server sched u p (fuel + 1) [] [.listPage 1] hlist]
  simp [searchLoop]

/-- Witness for C10: the invalid pattern `[` still yields a 200 success
with no matches when the listing is empty. -/
theorem C10_empty_listing_witness :
    searchRoute (fun _ => .ok []) (fun _ => []) "alice" "[" 1 =
      some (⟨200, .success "alice" "[" []⟩, [.listPage 1], []) :=
  C10_empty_listing (fun _ => .ok []) (fun _ => []) "alice" "[" 0 (by decide)

/-- Counterexample to claim C3: a user with one gist submits the invalid
pattern `[`; the service does answer 400 with the exact diagnostic, but
only after two listing-page network calls, refuting the sentence that no
network call of any kind is made before the failure is reported.  (When
the listing is empty the claim's 400 itself fails to materialise: see
C10.) -/
theorem C3_counterexample :
    searchRoute
        (fun page => if page = 1 then .ok [⟨"https://gists/1", [⟨"raw1", .ok ['a']⟩]⟩] else .ok [])
        (fun _ => [0]) "testuser" "[" 3 =
      some (⟨400, .errorMsg "Invalid pattern, unterminated character set at position 0"⟩,
            [.listPage 1, .listPage 2], [])
    ∧ ([NetCall.listPage 1, NetCall.listPage 2] : List NetCall) ≠ [] := by
  constructor
  · decide
  · decide

/-- Claim C3 as amended: when the pattern fails to compile and the gist
listing succeeded with at least one gist, the response is 400 with the
message `Invalid pattern, ` followed by the underlying syntax diagnostic
(for `[` exactly `unterminated character set at position 0`, as
`C3_amended_witness` instantiates), and every network call made before the
failure is a listing-page request: no file content is ever fetched.  The
listing-page requests, however, do precede the failure, and an empty
listing short-circuits to a 200 before the pattern is ever compiled. -/
theorem C3_amended (server : Nat → PageResp) (sched : Nat → List Nat)
    (u p : String) (fuel : Nat) (msg : String) (gists : List Gist) (cs : List NetCall)
    (hc : pyCompile p.toList = .error msg)
    (hlist : gists_for_user server fuel 1 [] = some (.ok gists, cs))
    (hne : gists ≠ []) :
    searchRoute server sched u p fuel =
      some (⟨400, .errorMsg ("Invalid pattern, " ++ msg)⟩, cs, [])
    ∧ ∀ c ∈ cs, ∃ pg, c = NetCall.listPage pg := by
  cases gists with
  | nil => exact absurd rfl hne
  | cons g gs =>
    constructor
    · rw [searchRoute_eq server sched u p fuel (g :: gs) cs hlist]
      have hloop : searchLoop p.toList sched (g :: gs) 0 = ⟨.error (.reError msg), [], []⟩ := by
        have hc' : pyCompile p.data = Except.error msg := hc
        simp [searchLoop, hc']
      rw [hloop]
      simp [exception_handler]
    · exact gists_for_user_calls_listPage fuel server 1 [] (.ok (g :: gs), cs) hlist

/-- Witness for the amended C3: the concrete `[` pattern against a
one-gist listing. -/
theorem C3_amended_witness :
    searchRoute
        (fun page => if page = 1 then .ok [⟨"https://gists/1", [⟨"raw1", .ok ['a']⟩]⟩] else .ok [])
        (fun _ => [0]) "testuser" "[" 3 =
      some (⟨400, .errorMsg ("Invalid pattern, " ++ "unterminated character set at position 0")⟩,
            [.listPage 1, .listPage 2], [])
    ∧ ∀ c ∈ ([.listPage 1, .listPage 2] : List NetCall), ∃ pg, c = NetCall.listPage pg :=
  C3_amended
    (fun page => if page = 1 then .ok [⟨"https://gists/1", [⟨"raw1", .ok ['a']⟩]⟩] else .ok [])
    (fun _ => [0]) "testuser" "[" 3 "unterminated character set at position 0"
    [⟨"https://gists/1", [⟨"raw1", .ok ['a']⟩]⟩] [.listPage 1, .listPage 2]
    (by decide) (by decide) (by decide)

/-- Claim C7: a gist with an empty file collection scans to `false` and
performs no file fetch at all. -/
theorem C7_empty_files (m : List Char → Bool) (g : Gist) (order : List Nat)
    (hfiles : g.files = [])
    (horder : order.Perm (List.range g.files.length)) :
    gist_contains_pattern m g order = .ok false ∧ scanCalls g order = [] := by
  have hord : order = [] := by
    rw [hfiles, List.length_nil, List.range_zero] at horder
    exact horder.eq_nil
  subst hord
  exact ⟨rfl, rfl⟩

/-- Witness for C7: the concrete empty gist. -/
theorem C7_empty_files_witness :
    gist_contains_pattern (fun _ => true) ⟨"u", []⟩ [] = .ok false
    ∧ scanCalls ⟨"u", []⟩ [] = [] :=
  C7_empty_files (fun _ => true) ⟨"u", []⟩ [] (by decide) (by decide)

/-- Claim C2: within one gist scan, found and remote error race and the
first of them in task completion order resolves the scan: a first match
yields `true` whatever happens in the later part of the completion order
(sibling errors discovered after the match are suppressed); a first remote
error occurring before any match propagates exactly that error; and when
every file task completes with no match and no error the scan yields
`false`. -/
theorem C2_race (m : List Char → Bool) (g : Gist) (order : List Nat) :
    (∀ (pre post : List FileModel) (f : FileModel),
        completionOf g order = pre ++ f :: post →
        (∀ q ∈ pre, check_file_contains_pattern m q = .ok ()) →
        fileMatched m f = true →
        gist_contains_pattern m g order = .ok true)
    ∧ (∀ (pre post : List FileModel) (f : FileModel) (st : Nat) (pl : String),
        completionOf g order = pre ++ f :: post →
        (∀ q ∈ pre, check_file_contains_pattern m q = .ok ()) →
        f.resp = .err st pl →
        gist_contains_pattern m g order = .error ⟨st, pl⟩)
    ∧ (order.Perm (List.range g.files.length) →
        (∀ f ∈ g.files, check_file_contains_pattern m f = .ok ()) →
        gist_contains_pattern m g order = .ok false) :=
  ⟨fun pre post f hs hq hm => scan_true_of_first_match m g order pre post f hs hq hm,
   fun pre post f st pl hs hq hf => scan_error_of_first_error m g order pre post f st pl hs hq hf,
   fun horder hq => scan_false_of_all_quiet m g order fun f hf =>
     hq f ((completionOf_perm g order horder).subset hf)⟩

/-- Witness for C2: a match completing first wins over a later sibling
error; an error completing before any match propagates; all-quiet scans
yield false. -/
theorem C2_race_witness :
    gist_contains_pattern (fun t => t == ['x'])
        ⟨"gA", [⟨"r0", .ok ['x']⟩, ⟨"r1", .err 500 "boom"⟩]⟩ [0, 1] = .ok true
    ∧ gist_contains_pattern (fun t => t == ['x'])
        ⟨"gB", [⟨"r0", .ok ['y']⟩, ⟨"r1", .err 403 "limit"⟩, ⟨"r2", .ok ['x']⟩]⟩ [0, 1, 2] =
        .error ⟨403, "limit"⟩
    ∧ gist_contains_pattern (fun t => t == ['x'])
        ⟨"gC", [⟨"r0", .ok ['y']⟩, ⟨"r1", .ok ['z']⟩]⟩ [1, 0] = .ok false :=
  ⟨(C2_race (fun t => t == ['x']) ⟨"gA", [⟨"r0", .ok ['x']⟩, ⟨"r1", .err 500 "boom"⟩]⟩ [0, 1]).1
      [] [⟨"r1", .err 500 "boom"⟩] ⟨"r0", .ok ['x']⟩ (by decide)
      (fun q hq => absurd hq (List.not_mem_nil q)) (by decide),
   (C2_race (fun t => t == ['x'])
        ⟨"gB", [⟨"r0", .ok ['y']⟩, ⟨"r1", .err 403 "limit"⟩, ⟨"r2", .ok ['x']⟩]⟩ [0, 1, 2]).2.1
      [⟨"r0", .ok ['y']⟩] [⟨"r2", .ok ['x']⟩] ⟨"r1", .err 403 "limit"⟩ 403 "limit" (by decide)
      (fun q hq => by
        have hq0 : q = ⟨"r0", .ok ['y']⟩ := by
          rcases List.mem_singleton.mp hq with h
          exact h
        subst hq0
        decide) (by decide),
   (C2_race (fun t => t == ['x']) ⟨"gC", [⟨"r0", .ok ['y']⟩, ⟨"r1", .ok ['z']⟩]⟩ [1, 0]).2.2
      (by decide) (fun f hf => by
        rcases List.mem_cons.mp hf with h | h
        · subst h; decide
        · rcases List.mem_singleton.mp h with h
          subst h; decide)⟩

/-- Claim C5: the service's matching is anchored at the start of the file
content (a content matches exactly when the compiled pattern accepts some
initial segment, never via a match starting later in the string, as the
`['a', 'b']` contrast shows), and the pattern is compiled in dot-all mode,
under which `.` matches a newline (while without the flag it does not). -/
theorem C5_anchored_dotall :
    (∀ (d : Bool) (r : Regex) (s : List Char),
        pyMatchB d r s = true ↔ ∃ k, k ≤ s.length ∧ acceptsB d r (s.take k) = true)
    ∧ pyMatchB true (.char 'b') ['a', 'b'] = false
    ∧ acceptsB true (.char 'b') (['a', 'b'].drop 1) = true
    ∧ pyMatchB true .dot ['\n'] = true
    ∧ pyMatchB false .dot ['\n'] = false := by
  refine ⟨?_, by decide, by decide, by decide, by decide⟩
  intro d r s
  unfold pyMatchB
  rw [List.any_eq_true]
  constructor
  · rintro ⟨k, hk, ha⟩
    exact ⟨k, by simpa [Nat.lt_succ_iff] using List.mem_range.mp hk, ha⟩
  · rintro ⟨k, hk, ha⟩
    exact ⟨k, List.mem_range.mpr (by omega), ha⟩

/-- Claim C9: every remote-dependency failure reaching the error handler is
answered by status 500 with exactly the generic body, independent of the
remote error's status code and payload; the specific status and payload
appear in the server log line and nowhere in the response. -/
theorem C9_remote_error_opaque :
    ∀ e : RemoteError,
      (exception_handler (.github e)).1 =
        ⟨500, .errorMsg "Internal error. Please contact technical support."⟩
      ∧ (exception_handler (.github e)).2 =
          ["GitHub API error: " ++ e.payload ++ " (" ++ toString e.status ++ ")"]
      ∧ ∀ e' : RemoteError,
          (exception_handler (.github e)).1 = (exception_handler (.github e')).1 :=
  fun _ => ⟨rfl, rfl, fun _ => rfl⟩

/-- Claim C1: on a search that completes with status success, a gist's URL
is among the returned matches exactly when at least one of that gist's
files has content matched by the compiled pattern; in particular a gist
with zero files never appears in the matches. -/
theorem C1_matches_iff (server : Nat → PageResp) (sched : Nat → List Nat)
    (u p : String) (fuel : Nat) (gists : List Gist) (cs calls : List NetCall)
    (ms : List String) (log : List String) (r : Regex)
    (hc : pyCompile p.toList = .ok r)
    (hlist : gists_for_user server fuel 1 [] = some (.ok gists, cs))
    (hsched : ∀ i ∈ List.range gists.length,
        (sched i).Perm (List.range (gists.getD i dfltGist).files.length))
    (hnodup : (gists.map Gist.url).Nodup)
    (hroute : searchRoute server sched u p fuel = some (⟨200, .success u p ms⟩, calls, log)) :
    ∀ i ∈ List.range gists.length,
      ((gists.getD i dfltGist).url ∈ ms ↔
        ∃ f ∈ (gists.getD i dfltGist).files, fileMatched (pyMatchB true r) f = true)
      ∧ ((gists.getD i dfltGist).files = [] → (gists.getD i dfltGist).url ∉ ms) := by
  have hloop : (searchLoop p.toList sched gists 0).result = .ok ms := by
    rw [searchRoute_eq server sched u p fuel gists cs hlist] at hroute
    cases hres : (searchLoop p.toList sched gists 0).result with
    | error exn =>
      rw [hres] at hroute
      cases exn <;> simp [exception_handler] at hroute
    | ok ms' =>
      rw [hres] at hroute
      simp only [Option.some.injEq, Prod.mk.injEq, HttpResponse.mk.injEq,
        BodyJson.success.injEq] at hroute
      rw [hroute.1.2.2.2]
  intro i hi
  have hi' : i < gists.length := List.mem_range.mp hi
  obtain ⟨b, hb, hiff⟩ :=
    searchLoop_ok_mem p.toList sched r hc gists 0 ms hloop hnodup i hi'
  rw [Nat.zero_add] at hb
  have horder := hsched i hi
  have hmatched :=
    scan_ok_iff_matched (pyMatchB true r) (gists.getD i dfltGist) (sched i) b horder hb
  refine ⟨hiff.trans hmatched, ?_⟩
  intro hemp hmem
  obtain ⟨f, hf, _⟩ := (hiff.trans hmatched).mp hmem
  rw [hemp] at hf
  exact absurd hf (List.not_mem_nil f)

/-- Witness for C1: two distinct gists, the pattern `x` matching only the
first one's file; the 200 success response lists exactly that gist, and
the theorem instantiated at the first gist certifies its membership. -/
theorem C1_matches_iff_witness :
    ((([⟨"uA", [⟨"rA", .ok ['x']⟩]⟩, ⟨"uB", [⟨"rB", .ok ['y']⟩]⟩] : List Gist).getD 0 dfltGist).url
        ∈ ["uA"] ↔
      ∃ f ∈ (([⟨"uA", [⟨"rA", .ok ['x']⟩]⟩, ⟨"uB", [⟨"rB", .ok ['y']⟩]⟩] : List Gist).getD
          0 dfltGist).files,
        fileMatched (pyMatchB true (.cat (.char 'x') .eps)) f = true)
    ∧ ((([⟨"uA", [⟨"rA", .ok ['x']⟩]⟩, ⟨"uB", [⟨"rB", .ok ['y']⟩]⟩] : List Gist).getD
          0 dfltGist).files = [] →
        (([⟨"uA", [⟨"rA", .ok ['x']⟩]⟩, ⟨"uB", [⟨"rB", .ok ['y']⟩]⟩] : List Gist).getD
          0 dfltGist).url ∉ ["uA"]) :=
  C1_matches_iff
    (fun page => if page = 1
      then .ok [⟨"uA", [⟨"rA", .ok ['x']⟩]⟩, ⟨"uB", [⟨"rB", .ok ['y']⟩]⟩] else .ok [])
    (fun _ => [0]) "alice" "x" 3
    [⟨"uA", [⟨"rA", .ok ['x']⟩]⟩, ⟨"uB", [⟨"rB", .ok ['y']⟩]⟩]
    [.listPage 1, .listPage 2]
    [.listPage 1, .listPage 2, .fetchFile "rA", .fetchFile "rB"]
    ["uA"] [] (.cat (.char 'x') .eps)
    (by decide) (by decide) (by decide) (by decide) (by decide)
    0 (by decide)

/-- Claim C6: gists are scanned strictly sequentially in listing order --
on a run without exception the scanned trace is exactly the listing and
the matches are a subsequence of the listing's urls in that order; and a
`RemoteError` raised by the scan of gist `i` (the earlier scans having
resolved without error) aborts the whole loop with that error, the scanned
trace stopping at gist `i` so that no later gist is ever scanned. -/
theorem C6_sequential_abort (p : List Char) (sched : Nat → List Nat) (gists : List Gist)
    (r : Regex) (hc : pyCompile p = .ok r) :
    (∀ ms, (searchLoop p sched gists 0).result = .ok ms →
        (searchLoop p sched gists 0).scanned = gists.map Gist.url
        ∧ ms.Sublist (gists.map Gist.url))
    ∧ (∀ i e, i < gists.length →
        (∀ j, j < i → ∃ b,
          gist_contains_pattern (pyMatchB true r) (gists.getD j dfltGist) (sched j) = .ok b) →
        gist_contains_pattern (pyMatchB true r) (gists.getD i dfltGist) (sched i) = .error e →
        (searchLoop p sched gists 0).result = .error (.github e)
        ∧ (searchLoop p sched gists 0).scanned = (gists.take (i + 1)).map Gist.url) := by
  constructor
  · intro ms h
    exact searchLoop_ok_shape p sched r hc gists 0 ms h
  · intro i e hi hpre herr
    have hpre0 : ∀ j, j < i → ∃ b,
        gist_contains_pattern (pyMatchB true r) (gists.getD j dfltGist) (sched (0 + j)) = .ok b := by
      intro j hj
      simpa [Nat.zero_add] using hpre j hj
    have herr0 : gist_contains_pattern (pyMatchB true r) (gists.getD i dfltGist)
        (sched (0 + i)) = .error e := by
      simpa [Nat.zero_add] using herr
    exact searchLoop_err_aux p sched r hc i gists 0 e hpre0 hi herr0

/-- Witness for C6: the second of three gists raises a 403; the loop
resolves with that error having scanned only the first two gists. -/
theorem C6_sequential_abort_witness :
    (searchLoop "x".toList (fun _ => [0])
        [⟨"u0", [⟨"r0", .ok ['y']⟩]⟩, ⟨"u1", [⟨"r1", .err 403 "pl"⟩]⟩,
         ⟨"u2", [⟨"r2", .ok ['x']⟩]⟩] 0).result = .error (.github ⟨403, "pl"⟩)
    ∧ (searchLoop "x".toList (fun _ => [0])
        [⟨"u0", [⟨"r0", .ok ['y']⟩]⟩, ⟨"u1", [⟨"r1", .err 403 "pl"⟩]⟩,
         ⟨"u2", [⟨"r2", .ok ['x']⟩]⟩] 0).scanned =
        (([⟨"u0", [⟨"r0", .ok ['y']⟩]⟩, ⟨"u1", [⟨"r1", .err 403 "pl"⟩]⟩,
           ⟨"u2", [⟨"r2", .ok ['x']⟩]⟩] : List Gist).take 2).map Gist.url :=
  (C6_sequential_abort "x".toList (fun _ => [0])
      [⟨"u0", [⟨"r0", .ok ['y']⟩]⟩, ⟨"u1", [⟨"r1", .err 403 "pl"⟩]⟩,
       ⟨"u2", [⟨"r2", .ok ['x']⟩]⟩]
      (.cat (.char 'x') .eps) (by decide)).2 1 ⟨403, "pl"⟩ (by decide)
    (fun j hj => by
      have hj0 : j = 0 := by omega
      subst hj0
      exact ⟨false, by decide⟩)
    (by decide)

end Gistapi
